import Mathlib

/-!
Verification of the matrix / neural-network engine in src/ (matrix.hpp,
math.hpp, neuralnet.hpp).  The C++ code is templated over the entry type
and instantiated everywhere at `double`; entries are modelled as real
numbers.  Machine-level floating point rounding is not modelled, but the
text formatting used by weight persistence (six significant digits, the
default iostream precision) is modelled exactly, because the on-disk
format is part of the persistence contract.
-/

namespace NNet

/-! ## Matrix engine, from src/matrix.hpp (namespace Matrix) -/

/-- Matrix of shape N x M with double entries, row-major.  Mirrors
`Matrix::Matrix<double, N, M>` from matrix.hpp. -/
abbrev Matrix (N M : ℕ) : Type := Fin N → Fin M → ℝ

/-- The error thrown by `Matrix::operator[]` (std::out_of_range). -/
inductive MatrixError
  | outOfRange
deriving DecidableEq

/-- Row access `operator[](idx)` from matrix.hpp lines 32-35: the row index
is checked on every access and std::out_of_range is thrown when it is not
below N. -/
def rowGet {N M : ℕ} (A : Matrix N M) (idx : ℕ) : Except MatrixError (Fin M → ℝ) :=
  if h : idx < N then .ok (A ⟨idx, h⟩) else .error .outOfRange

/-- Column access on a row is `std::array::operator[]`, which performs no
bounds check: an out-of-range column read is undefined behavior, modelled
as `none`. -/
def arrGet {M : ℕ} (row : Fin M → ℝ) (j : ℕ) : Option ℝ :=
  if h : j < M then some (row ⟨j, h⟩) else none

/-- Element access `A[i][j]` as written throughout the code base: the
checked row access composed with the unchecked std::array column access. -/
def elemAccess {N M : ℕ} (A : Matrix N M) (i j : ℕ) : Except MatrixError (Option ℝ) :=
  (rowGet A i).map (fun row => arrGet row j)

/-- `Matrix::transpose` (matrix.hpp lines 55-65): result[j][i] = this[i][j]. -/
def transpose {N M : ℕ} (A : Matrix N M) : Matrix M N := fun j i => A i j

/-- Binary `operator-` (matrix.hpp lines 90-101): entrywise difference. -/
def sub {N M : ℕ} (A B : Matrix N M) : Matrix N M := fun i j => A i j - B i j

/-- `operator^` (matrix.hpp lines 116-127): the Hadamard, entrywise product. -/
def hadamard {N M : ℕ} (A B : Matrix N M) : Matrix N M := fun i j => A i j * B i j

/-- Scalar `operator*` (matrix.hpp lines 140-150): result[i][j] = matrix[i][j] * scalar. -/
def smulMat {N M : ℕ} (scalar : ℝ) (A : Matrix N M) : Matrix N M := fun i j => A i j * scalar

/-- Matrix product `operator*` (matrix.hpp lines 164-182): the inner k loop
accumulates matrix1[i][k] * matrix2[k][j] starting from a zero-initialized
result, which is the finite sum below. -/
def matMul {N K M : ℕ} (A : Matrix N K) (B : Matrix K M) : Matrix N M :=
  fun i j => ∑ k : Fin K, A i k * B k j

/-- Unary `operator-` (matrix.hpp lines 191-194): returns -1.0 * matrix. -/
def negate {N M : ℕ} (A : Matrix N M) : Matrix N M := smulMat (-1) A

/-- The zero-initialized matrix, `Matrix<T, N, M> result\x7b\x7d` in the source. -/
def zeroMatrix (N M : ℕ) : Matrix N M := fun _ _ => 0

/-- `randomMatrix` (matrix.hpp lines 205-220) parameterized by the values
the uniform generator produced for each position: every entry is the drawn
value, except that a draw of exactly 0 is incremented by 0.01. -/
noncomputable def randomMatrix {N M : ℕ} (draws : Matrix N M) : Matrix N M :=
  fun i j => if draws i j = 0 then draws i j + 0.01 else draws i j

/-! ## Activation, from src/math.hpp (namespace Math) -/

/-- `Math::sigmoid(x, derivative)` (math.hpp lines 37-40): with derivative
false it returns 1 / (1 + exp(-x)); with derivative true it returns
sigmoid(x) * (1 - sigmoid(x)), recursing into the derivative-false case. -/
noncomputable def sigmoid (x : ℝ) (derivative : Bool) : ℝ :=
  let s := 1 / (1 + Real.exp (-x))
  if derivative then s * (1 - s) else s

/-- The elementwise lift of `Math::sigmoid` to matrices (math.hpp lines 50-64). -/
noncomputable def sigmoidMat {N M : ℕ} (A : Matrix N M) (derivative : Bool) : Matrix N M :=
  fun i j => sigmoid (A i j) derivative

/-! ## Network, from src/neuralnet.hpp (namespace NeuralNetwork) -/

/-- A column vector is a matrix with a single column (neuralnet.hpp line 18). -/
abbrev ColumnVector (N : ℕ) : Type := Matrix N 1

/-- Weight matrix of shape CurrentLayerSize x PrevLayerSize (neuralnet.hpp line 28). -/
abbrev Weights (CurrentLayerSize PrevLayerSize : ℕ) : Type := Matrix CurrentLayerSize PrevLayerSize

/-- `TrainingLabel` (neuralnet.hpp lines 38-43). -/
structure TrainingLabel (InputSize OutputSize : ℕ) where
  value : ℕ
  label : ColumnVector OutputSize
  input : ColumnVector InputSize

/-- `TrainingSet`, an ordered sequence of training labels (neuralnet.hpp line 52). -/
abbrev TrainingSet (InputSize OutputSize : ℕ) : Type := List (TrainingLabel InputSize OutputSize)

/-- The state of a `NeuralNetwork` (neuralnet.hpp lines 62-75, 189-194). -/
structure NeuralNetwork (InputSize HiddenSize OutputSize : ℕ) where
  learningRate : ℝ
  verbose : Bool
  inputWeights : Weights HiddenSize InputSize
  hiddenWeights : Weights OutputSize HiddenSize

/-- Reads position i of the single column of a column vector; the scan in
`query` only ever uses indices below the size, where this returns the
stored entry. -/
def entry {N : ℕ} (v : ColumnVector N) (i : ℕ) : ℝ :=
  if h : i < N then v ⟨i, h⟩ 0 else 0

/-- The result-selection loop of `query` (neuralnet.hpp lines 92-96):
result starts at 0 and index i from 1 upwards replaces it only when
v i is strictly greater than v result. -/
noncomputable def queryScan (n : ℕ) (v : ℕ → ℝ) : ℕ :=
  ((List.range n).drop 1).foldl (fun result i => if v i ≤ v result then result else i) 0

/-- `NeuralNetwork::query` (neuralnet.hpp lines 85-99).  It is a pure
function of the network state: the C++ method is const and the embedding
returns only the chosen index, so no network state is mutated. -/
noncomputable def query {I H O : ℕ} (net : NeuralNetwork I H O) (input : ColumnVector I) : ℕ :=
  let hiddenOutput := sigmoidMat (matMul net.inputWeights input) false
  let output := sigmoidMat (matMul net.hiddenWeights hiddenOutput) false
  queryScan O (entry output)

/-- The body of the training loop of `NeuralNetwork::train` (neuralnet.hpp
lines 112-141) for one training label: forward pass, error backpropagation
from the pre-update weights, the two gradient matrices, then the two weight
updates committed together at the end of the iteration. -/
noncomputable def trainStep {I H O : ℕ} (net : NeuralNetwork I H O)
    (trainingLabel : TrainingLabel I O) : NeuralNetwork I H O :=
  let hiddenInput := matMul net.inputWeights trainingLabel.input
  let hiddenOutput := sigmoidMat hiddenInput false
  let outputInput := matMul net.hiddenWeights hiddenOutput
  let output := sigmoidMat outputInput false
  let outputErrors := sub trainingLabel.label output
  let hiddenErrors := matMul (transpose net.hiddenWeights) outputErrors
  let outputErrorsDerivative :=
    matMul (hadamard (negate outputErrors) (sigmoidMat outputInput true)) (transpose hiddenOutput)
  let hiddenErrorsDerivative :=
    matMul (hadamard (negate hiddenErrors) (sigmoidMat hiddenInput true)) (transpose trainingLabel.input)
  { net with
    hiddenWeights := sub net.hiddenWeights (smulMat net.learningRate outputErrorsDerivative)
    inputWeights := sub net.inputWeights (smulMat net.learningRate hiddenErrorsDerivative) }

/-- `NeuralNetwork::train` (neuralnet.hpp lines 107-144): one pass over the
training set in order, mutating the weights after every example, which is a
left fold of the loop body. -/
noncomputable def train {I H O : ℕ} (net : NeuralNetwork I H O)
    (trainingSet : TrainingSet I O) : NeuralNetwork I H O :=
  trainingSet.foldl trainStep net

/-! ## Weight persistence, from src/neuralnet.hpp lines 152-187 and 245-279

The on-disk content is a sequence of tokens separated by single space
characters (loadMatrix reads with getline over the space delimiter).  A
token is modelled by the outcome std::stod produces for it: `some x` when
stod parses the token to the value x, `none` when stod throws
std::invalid_argument (empty token from a truncated stream, or a token
with no numeric prefix).  The newline that dumpWeightsToFile writes
between the two blocks is absorbed as leading whitespace of the next
token and is ignored by stod, so it does not appear in the token model. -/

/-- Outcome of std::stod on one space-delimited token. -/
abbrev Token : Type := Option ℝ

/-- The exception that ends a load: std::invalid_argument from std::stod. -/
inductive LoadError
  | invalidArgument
deriving DecidableEq

/-- One getline-plus-stod read (neuralnet.hpp lines 273-274).  Reading past
the end of the stream yields an empty token and stod throws; a non-numeric
token also throws; otherwise the parsed value and the rest of the stream
are returned. -/
def readToken : List Token → Except LoadError (ℝ × List Token)
  | [] => .error .invalidArgument
  | none :: _ => .error .invalidArgument
  | some x :: rest => .ok (x, rest)

/-- In-place store `weights[i][j] = value` on the row-major grid. -/
def update {N M : ℕ} (w : Matrix N M) (i : Fin N) (j : Fin M) (value : ℝ) : Matrix N M :=
  fun a b => if a = i ∧ b = j then value else w a b

/-- The row-major traversal order of the two nested loops in dumpMatrix and
loadMatrix. -/
def rowMajorPairs (N M : ℕ) : List (Fin N × Fin M) :=
  (List.finRange N).flatMap fun i => (List.finRange M).map fun j => (i, j)

/-- The loop of `loadMatrix` (neuralnet.hpp lines 267-279): entries are
written into the weights one at a time as they parse.  When a read throws,
the partially overwritten weights are kept (the matrix is mutated in
place) and `none` marks the escaped exception; on success the remaining
stream is returned. -/
def loadEntries {N M : ℕ} :
    List (Fin N × Fin M) → List Token → Matrix N M → Matrix N M × Option (List Token)
  | [], stream, w => (w, some stream)
  | p :: rest, stream, w =>
    match readToken stream with
    | .error _ => (w, none)
    | .ok (x, stream2) => loadEntries rest stream2 (update w p.1 p.2 x)

/-- `NeuralNetwork::loadMatrix` over the whole row-major index range. -/
def loadMatrix {N M : ℕ} (stream : List Token) (weights : Matrix N M) :
    Matrix N M × Option (List Token) :=
  loadEntries (rowMajorPairs N M) stream weights

/-- `NeuralNetwork::loadWeightsFromFile` (neuralnet.hpp lines 173-187):
loads the input weights then the hidden weights; an exception from either
load is caught and false is returned, with every entry already stored by
the failed load left in place. -/
def loadWeightsFromFile {I H O : ℕ} (net : NeuralNetwork I H O) (stream : List Token) :
    NeuralNetwork I H O × Bool :=
  let r1 := loadMatrix stream net.inputWeights
  match r1.2 with
  | none => ({ net with inputWeights := r1.1 }, false)
  | some rest =>
    let r2 := loadMatrix rest net.hiddenWeights
    match r2.2 with
    | none => ({ net with inputWeights := r1.1, hiddenWeights := r2.1 }, false)
    | some _ => ({ net with inputWeights := r1.1, hiddenWeights := r2.1 }, true)

/-- The value denoted by the text that `stream << x` writes for a double x
under the default iostream configuration: six significant decimal digits.
For nonzero x, with e the decimal exponent of x, the written numeral
denotes round(x * 10 ^ (5 - e)) * 10 ^ (e - 5). -/
noncomputable def fmt (x : ℝ) : ℝ :=
  if x = 0 then 0
  else ((round (x * (10 : ℝ) ^ ((5 : ℤ) - Int.log 10 |x|)) : ℤ) : ℝ) *
    (10 : ℝ) ^ (Int.log 10 |x| - (5 : ℤ))

/-- The loop of `dumpMatrix` (neuralnet.hpp lines 245-255): each entry is
written in row-major order followed by a space; the token later read back
from it parses to the six-significant-digit value of the entry. -/
noncomputable def dumpMatrix {N M : ℕ} (weights : Matrix N M) : List Token :=
  (rowMajorPairs N M).map fun p => some (fmt (weights p.1 p.2))

/-- The stream content produced by `dumpWeightsToFile` (neuralnet.hpp lines
152-164) as its token sequence: the input-weights block, then the
hidden-weights block.  The std::endl between them merges into the leading
whitespace of the first hidden token. -/
noncomputable def dumpWeights {I H O : ℕ} (net : NeuralNetwork I H O) : List Token :=
  dumpMatrix net.inputWeights ++ dumpMatrix net.hiddenWeights

/-! ## The output stream failure model for dumpWeightsToFile -/

/-- State of a std::ofstream: whether failure exceptions were enabled by a
call to exceptions(), and whether the failbit/badbit is set.  Default
construction leaves the exception mask empty. -/
structure OFStream where
  throwOnFail : Bool
  failed : Bool

/-- The exception std::ofstream::failure. -/
inductive StreamFailure
  | failure

/-- One insertion into the stream: a failed OS write sets the fail state,
and the stream throws exactly when it is in the fail state and failure
exceptions are enabled on it. -/
def streamPut (writeOk : Bool) (s : OFStream) : Except StreamFailure OFStream :=
  let s2 : OFStream := ⟨s.throwOnFail, s.failed || !writeOk⟩
  if s2.failed && s2.throwOnFail then .error .failure else .ok s2

/-- `NeuralNetwork::dumpWeightsToFile` (neuralnet.hpp lines 152-164).  The
environment env reports whether the OS accepts the open (env 0) and each
successive insertion.  The try block constructs the ofstream without ever
calling exceptions(), so throwOnFail is false, and performs one insertion
per dumped entry plus the std::endl; the catch branch yields false. -/
noncomputable def dumpWeightsToFile {I H O : ℕ} (net : NeuralNetwork I H O)
    (env : ℕ → Bool) : Bool :=
  let stream0 : OFStream := ⟨false, !env 0⟩
  let puts := (dumpWeights net).length + 1
  match (List.range puts).foldlM (fun s k => streamPut (env (k + 1)) s) stream0 with
  | .error _ => false
  | .ok _ => true

/-! ## Theorems -/

/-- C1.  One training pass is the left fold, over the training sequence in
insertion order, of the per-example step that computes the forward pass
(hiddenInput, hiddenOutput, outputInput, output), the errors from the
pre-update hiddenWeights, the two gradients as the Hadamard product of the
negated errors with the sigmoid derivative of the pre-activation, times
the transposed upstream activation, and then commits both weight updates
(weights minus learningRate times gradient) before the next example. -/
theorem claim1_train_online_fold {I H O : ℕ} (net : NeuralNetwork I H O)
    (trainingSet : TrainingSet I O) :
    train net trainingSet = trainingSet.foldl (fun w tl =>
      let hiddenInput := matMul w.inputWeights tl.input
      let hiddenOutput := sigmoidMat hiddenInput false
      let outputInput := matMul w.hiddenWeights hiddenOutput
      let output := sigmoidMat outputInput false
      let outputErrors := sub tl.label output
      let hiddenErrors := matMul (transpose w.hiddenWeights) outputErrors
      let outputGrad :=
        matMul (hadamard (negate outputErrors) (sigmoidMat outputInput true)) (transpose hiddenOutput)
      let hiddenGrad :=
        matMul (hadamard (negate hiddenErrors) (sigmoidMat hiddenInput true)) (transpose tl.input)
      { w with
        hiddenWeights := sub w.hiddenWeights (smulMat w.learningRate outputGrad)
        inputWeights := sub w.inputWeights (smulMat w.learningRate hiddenGrad) }) net := rfl

/-- A concrete 2 x 2 matrix used as the test subject for element access. -/
def sampleMatrix : Matrix 2 2 := fun _ _ => 0

/-- C6 counterexample.  The claim says access fails whenever the column
index is at least M; on the 2 x 2 matrix, reading row 0 and column 5 does
not fail: only the row index is checked, the std::array column access is
unchecked undefined behavior. -/
theorem claim6_counterexample : elemAccess sampleMatrix 0 5 = Except.ok none := rfl

/-- C6 amended.  Element access checks the row index on every access and
fails with the out-of-range error exactly when the row index is at least
N; when both indices are in range it returns the stored entry.  An
in-range row with an out-of-range column is not checked (undefined
behavior, modelled as a read of no value). -/
theorem claim6_row_checked {N M : ℕ} (A : Matrix N M) (i j : ℕ) :
    (N ≤ i → elemAccess A i j = Except.error MatrixError.outOfRange) ∧
    (∀ (hi : i < N) (hj : j < M), elemAccess A i j = Except.ok (some (A ⟨i, hi⟩ ⟨j, hj⟩))) := by
  constructor
  · intro h
    simp [elemAccess, rowGet, dif_neg (Nat.not_lt.mpr h), Except.map]
  · intro hi hj
    simp [elemAccess, rowGet, dif_pos hi, arrGet, dif_pos hj, Except.map]

/-- C6 witness: row 5 of the 2 x 2 matrix fails, entry (1, 1) is returned. -/
theorem claim6_witness :
    elemAccess sampleMatrix 5 0 = Except.error MatrixError.outOfRange ∧
    elemAccess sampleMatrix 1 1 = Except.ok (some (0 : ℝ)) :=
  ⟨(claim6_row_checked sampleMatrix 5 0).1 (by norm_num),
   (claim6_row_checked sampleMatrix 1 1).2 (by norm_num) (by norm_num)⟩

/-- C7.  Whatever values in [-1, 1] the uniform generator produces, every
entry of the resulting random matrix lies in [-1, 1] and no entry is
exactly 0: a draw of exactly 0 is nudged to 0.01. -/
theorem claim7_random_in_range {N M : ℕ} (draws : Matrix N M)
    (h : ∀ i j, -1 ≤ draws i j ∧ draws i j ≤ 1) (i : Fin N) (j : Fin M) :
    (-1 ≤ randomMatrix draws i j ∧ randomMatrix draws i j ≤ 1) ∧ randomMatrix draws i j ≠ 0 := by
  obtain ⟨h1, h2⟩ := h i j
  unfold randomMatrix
  split_ifs with hz
  · rw [hz]; norm_num
  · exact ⟨⟨h1, h2⟩, hz⟩

/-- An all-zero 1 x 1 draw matrix, exercising the zero-nudge rule. -/
def zeroDraws : Matrix 1 1 := fun _ _ => 0

/-- C7 witness: a generator draw of exactly 0 yields an entry in [-1, 1]
that is not 0. -/
theorem claim7_witness :
    (-1 ≤ randomMatrix zeroDraws 0 0 ∧ randomMatrix zeroDraws 0 0 ≤ 1) ∧
    randomMatrix zeroDraws 0 0 ≠ 0 :=
  claim7_random_in_range zeroDraws (fun _ _ => by norm_num [zeroDraws]) 0 0

/-- C8.  For every real x the sigmoid lies strictly between 0 and 1,
sigmoid of 0 is one half, derivative mode returns sigmoid(x) times
(1 - sigmoid(x)), a value in (0, 1/4] that attains 1/4 at x = 0. -/
theorem claim8_sigmoid_bounds (x : ℝ) :
    (0 < sigmoid x false ∧ sigmoid x false < 1) ∧
    sigmoid 0 false = 1 / 2 ∧
    sigmoid x true = sigmoid x false * (1 - sigmoid x false) ∧
    (0 < sigmoid x true ∧ sigmoid x true ≤ 1 / 4) ∧
    sigmoid 0 true = 1 / 4 := by
  have hex : (0 : ℝ) < Real.exp (-x) := Real.exp_pos _
  have hden : (0 : ℝ) < 1 + Real.exp (-x) := by linarith
  have hs0 : 0 < sigmoid x false := by
    show 0 < 1 / (1 + Real.exp (-x)); positivity
  have hs1 : sigmoid x false < 1 := by
    show 1 / (1 + Real.exp (-x)) < 1
    rw [div_lt_one hden]; linarith
  have hhalf : sigmoid 0 false = 1 / 2 := by
    show 1 / (1 + Real.exp (-(0 : ℝ))) = 1 / 2
    rw [neg_zero, Real.exp_zero]; norm_num
  have hderiv : ∀ y : ℝ, sigmoid y true = sigmoid y false * (1 - sigmoid y false) :=
    fun y => rfl
  refine ⟨⟨hs0, hs1⟩, hhalf, hderiv x, ⟨?_, ?_⟩, ?_⟩
  · rw [hderiv x]; exact mul_pos hs0 (by linarith)
  · rw [hderiv x]; nlinarith [sq_nonneg (sigmoid x false - 1 / 2)]
  · rw [hderiv 0, hhalf]; norm_num

/-- C9.  Subtracting a matrix from itself gives the all-zero matrix of its
shape, the Hadamard product is commutative, and it distributes over
subtraction, all entrywise. -/
theorem claim9_matrix_algebra {N M : ℕ} (A B C : Matrix N M) :
    sub A A = zeroMatrix N M ∧ hadamard A B = hadamard B A ∧
    hadamard A (sub B C) = sub (hadamard A B) (hadamard A C) := by
  refine ⟨?_, ?_, ?_⟩ <;> funext i j <;> simp [sub, hadamard, zeroMatrix] <;> ring

/-- Inserting into a stream whose exception mask is empty never throws, and
the mask stays empty. -/
theorem foldlM_streamPut_ok (env : ℕ → Bool) (l : List ℕ) :
    ∀ s : OFStream, s.throwOnFail = false →
      ∃ s2, l.foldlM (fun st k => streamPut (env (k + 1)) st) s = Except.ok s2 ∧
        s2.throwOnFail = false := by
  induction l with
  | nil => exact fun s hs => ⟨s, rfl, hs⟩
  | cons a t ih =>
    intro s hs
    have hstep : streamPut (env (a + 1)) s =
        Except.ok ⟨s.throwOnFail, s.failed || !env (a + 1)⟩ := by
      simp [streamPut, hs]
    obtain ⟨s2, h2, hm⟩ := ih ⟨s.throwOnFail, s.failed || !env (a + 1)⟩ hs
    exact ⟨s2, by rw [List.foldlM_cons, hstep]; simpa using h2, hm⟩

/-- C10.  dumpWeightsToFile returns true for every environment, including
one where the open and every write fail: the ofstream is constructed with
the default empty exception mask and exceptions() is never called, so the
caught std::ofstream::failure can never be thrown and the false branch is
unreachable. -/
theorem claim10_dump_always_true {I H O : ℕ} (net : NeuralNetwork I H O) (env : ℕ → Bool) :
    dumpWeightsToFile net env = true := by
  unfold dumpWeightsToFile
  obtain ⟨s2, h2, -⟩ :=
    foldlM_streamPut_ok env (List.range ((dumpWeights net).length + 1)) ⟨false, !env 0⟩ rfl
  simp only [h2]

/-- A scan over a single index is the initial result 0. -/
theorem queryScan_one (v : ℕ → ℝ) : queryScan 1 v = 0 := rfl

/-- Peeling the last loop iteration off the result-selection scan. -/
theorem queryScan_succ (n : ℕ) (hn : 1 ≤ n) (v : ℕ → ℝ) :
    queryScan (n + 1) v = if v n ≤ v (queryScan n v) then queryScan n v else n := by
  unfold queryScan
  rw [List.range_succ, List.drop_append_of_le_length (by simpa using hn), List.foldl_append]
  rfl

/-- The scan returns the first index attaining the maximum: the result is
in range, every scanned value is at most the value at the result, and
every value strictly before the result is strictly below it. -/
theorem queryScan_spec (v : ℕ → ℝ) (n : ℕ) :
    queryScan (n + 1) v ≤ n ∧
    (∀ j, j ≤ n → v j ≤ v (queryScan (n + 1) v)) ∧
    (∀ j, j < queryScan (n + 1) v → v j < v (queryScan (n + 1) v)) := by
  induction n with
  | zero =>
    refine ⟨le_refl 0, ?_, ?_⟩
    · intro j hj
      have hj0 : j = 0 := Nat.le_zero.mp hj
      rw [hj0, queryScan_one]
    · intro j hj
      rw [queryScan_one] at hj
      exact absurd hj (Nat.not_lt_zero j)
  | succ n ih =>
    obtain ⟨hle, hmax, hstrict⟩ := ih
    rw [queryScan_succ (n + 1) (by omega)]
    split_ifs with h
    · refine ⟨by omega, ?_, hstrict⟩
      intro j hj
      rcases Nat.lt_or_ge j (n + 1) with h2 | h2
      · exact hmax j (by omega)
      · have hj1 : j = n + 1 := by omega
        rw [hj1]; exact h
    · push_neg at h
      refine ⟨le_refl _, ?_, ?_⟩
      · intro j hj
        rcases Nat.lt_or_ge j (n + 1) with h2 | h2
        · exact le_of_lt (lt_of_le_of_lt (hmax j (by omega)) h)
        · have hj1 : j = n + 1 := by omega
          rw [hj1]
      · intro j hj
        exact lt_of_le_of_lt (hmax j (by omega)) h

/-- C2.  query computes the forward pass output
sigmoid(hiddenWeights * sigmoid(inputWeights * input)) and returns the
smallest index of a maximal entry of that output: the result is in range,
no entry exceeds the entry at the result, and every entry strictly before
the result is strictly smaller, because the scan replaces its candidate
only on strict greater-than.  query is a pure function of the network
state, so it mutates neither weights nor learningRate nor verbose. -/
theorem claim2_query_argmax {I H o : ℕ} (net : NeuralNetwork I H (o + 1))
    (input : ColumnVector I) (out : ColumnVector (o + 1))
    (hout : out = sigmoidMat
      (matMul net.hiddenWeights (sigmoidMat (matMul net.inputWeights input) false)) false) :
    query net input < o + 1 ∧
    (∀ j, j < o + 1 → entry out j ≤ entry out (query net input)) ∧
    (∀ j, j < query net input → entry out j < entry out (query net input)) := by
  subst hout
  have hq : query net input = queryScan (o + 1)
      (entry (sigmoidMat
        (matMul net.hiddenWeights (sigmoidMat (matMul net.inputWeights input) false)) false)) := rfl
  rw [hq]
  obtain ⟨h1, h2, h3⟩ := queryScan_spec (entry _) o
  exact ⟨by omega, fun j hj => h2 j (by omega), h3⟩

/-- A concrete 1-1-1 network and input for exercising query. -/
def unitNet : NeuralNetwork 1 1 1 := ⟨1, false, fun _ _ => 1, fun _ _ => 1⟩

/-- A concrete singleton input vector. -/
def unitInput : ColumnVector 1 := fun _ _ => 1

/-- C2 witness: on the concrete 1-1-1 network the returned index is in
range of the output layer. -/
theorem claim2_witness : query unitNet unitInput < 1 :=
  (claim2_query_argmax unitNet unitInput _ rfl).1

/-- Every index pair of the grid occurs in the row-major traversal. -/
theorem mem_rowMajorPairs {N M : ℕ} (p : Fin N × Fin M) : p ∈ rowMajorPairs N M := by
  obtain ⟨i, j⟩ := p
  unfold rowMajorPairs
  rw [List.mem_flatMap]
  exact ⟨i, List.mem_finRange i, List.mem_map.mpr ⟨j, List.mem_finRange j, rfl⟩⟩

/-- Loading along a pair list from a stream that starts with one parsable
token per pair consumes exactly those tokens, stores each parsed value at
its pair, and leaves the rest of the stream. -/
theorem loadEntries_map_append {N M : ℕ} (g : Fin N × Fin M → ℝ) (rest : List Token)
    (pairs : List (Fin N × Fin M)) :
    ∀ w : Matrix N M,
      loadEntries pairs ((pairs.map fun p => some (g p)) ++ rest) w =
        (fun a b => if (a, b) ∈ pairs then g (a, b) else w a b, some rest) := by
  induction pairs with
  | nil =>
    intro w
    simp [loadEntries]
  | cons p ps ih =>
    intro w
    obtain ⟨p1, p2⟩ := p
    simp only [List.map_cons, List.cons_append, loadEntries, readToken]
    rw [ih]
    simp only [Prod.mk.injEq, and_true]
    funext a b
    by_cases hps : (a, b) ∈ ps
    · simp [hps]
    · by_cases hp : a = p1 ∧ b = p2
      · obtain ⟨ha, hb⟩ := hp
        subst ha; subst hb
        simp [hps, update]
      · have hne : ¬((a, b) = (p1, p2)) := by
          rw [Prod.mk.injEq]; exact hp
        simp [hps, hne, update, hp]

/-- Loading a dumped matrix block succeeds, stores the six-significant-digit
value of every entry, and leaves the rest of the stream untouched. -/
theorem loadEntries_dumpMatrix {N M : ℕ} (w0 w : Matrix N M) (rest : List Token) :
    loadEntries (rowMajorPairs N M) (dumpMatrix w ++ rest) w0 =
      (fun a b => fmt (w a b), some rest) := by
  unfold dumpMatrix
  rw [loadEntries_map_append]
  simp only [Prod.mk.injEq, and_true]
  funext a b
  simp [mem_rowMajorPairs]

/-- C4 amended.  Loading the token stream dumped from one network into any
network of identical shape always succeeds and reproduces the source
weights entry for entry up to the six-significant-digit text formatting of
the dump (default iostream precision); it is exact only on entries that
this formatting leaves unchanged, not in general. -/
theorem claim4_roundtrip_fmt {I H O : ℕ} (net1 net2 : NeuralNetwork I H O) :
    loadWeightsFromFile net2 (dumpWeights net1) =
      ({ net2 with
          inputWeights := fun a b => fmt (net1.inputWeights a b)
          hiddenWeights := fun a b => fmt (net1.hiddenWeights a b) }, true) := by
  have h1 : loadMatrix (dumpWeights net1) net2.inputWeights =
      (fun a b => fmt (net1.inputWeights a b), some (dumpMatrix net1.hiddenWeights)) := by
    unfold loadMatrix dumpWeights
    exact loadEntries_dumpMatrix net2.inputWeights net1.inputWeights _
  have h2 : loadMatrix (dumpMatrix net1.hiddenWeights) net2.hiddenWeights =
      (fun a b => fmt (net1.hiddenWeights a b), some []) := by
    unfold loadMatrix
    rw [← List.append_nil (dumpMatrix net1.hiddenWeights)]
    exact loadEntries_dumpMatrix net2.hiddenWeights net1.hiddenWeights []
  simp only [loadWeightsFromFile, h1, h2]

/-- A 1-1-1 network whose weights are all one third, which six significant
digits cannot represent. -/
noncomputable def netThird : NeuralNetwork 1 1 1 := ⟨1, false, fun _ _ => 1 / 3, fun _ _ => 1 / 3⟩

/-- The dumped text of the value one third denotes 0.333333, not one third. -/
theorem fmt_one_third : fmt ((1 : ℝ) / 3) = 333333 / 1000000 := by
  have h0 : ((1 : ℝ) / 3) ≠ 0 := by norm_num
  have habs : |(1 : ℝ) / 3| = 1 / 3 := abs_of_pos (by norm_num)
  have hceil : ⌈((1 : ℝ) / 3)⁻¹⌉₊ = 3 := by
    rw [show ((1 : ℝ) / 3)⁻¹ = 3 by norm_num]
    simp
  have hclog : Nat.clog 10 3 = 1 := by
    rw [Nat.clog_of_two_le (by norm_num) (by norm_num)]
    norm_num [Nat.clog_one_right]
  have hlog : Int.log 10 ((1 : ℝ) / 3) = -1 := by
    rw [Int.log_of_right_le_one 10 (by norm_num), hceil, hclog]
    norm_num
  have hround : round ((1 : ℝ) / 3 * 1000000) = 333333 := by
    rw [show (1 : ℝ) / 3 * 1000000 = ((1000000 / 3 : ℚ) : ℝ) by push_cast; ring,
      Rat.round_cast]
    rw [show ((1000000 / 3 : ℚ)) = 333333 + 1 / 3 by norm_num]
    rw [round_eq]
    norm_num [Int.floor_eq_iff]
  rw [fmt, if_neg h0, habs, hlog]
  rw [show ((5 : ℤ) - (-1)) = (6 : ℤ) by norm_num, show ((-1 : ℤ) - 5) = (-6 : ℤ) by norm_num]
  rw [show ((10 : ℝ) ^ (6 : ℤ)) = 1000000 by norm_num, hround]
  rw [show ((10 : ℝ) ^ (-6 : ℤ)) = 1 / 1000000 by rw [zpow_neg]; norm_num]
  norm_num

/-- C4 counterexample.  Dumping the network whose weights are one third and
loading the dump back does not reproduce the weights exactly: the entry
comes back as 0.333333. -/
theorem claim4_counterexample :
    (loadWeightsFromFile netThird (dumpWeights netThird)).1.inputWeights 0 0 ≠
      netThird.inputWeights 0 0 := by
  have hL : (loadWeightsFromFile netThird (dumpWeights netThird)).1.inputWeights 0 0 =
      fmt ((1 : ℝ) / 3) := rfl
  have hR : netThird.inputWeights 0 0 = (1 : ℝ) / 3 := rfl
  rw [hL, hR, fmt_one_third]
  norm_num

/-- The row-major traversal has one pair per grid position. -/
theorem rowMajorPairs_length (N M : ℕ) : (rowMajorPairs N M).length = N * M := by
  unfold rowMajorPairs
  simp [List.length_flatMap, Function.comp_def, List.length_map, List.length_finRange,
    List.map_const', List.sum_replicate, smul_eq_mul]

/-- Whether a block load escapes by exception depends only on whether the
stream starts with one parsable token per pair: it succeeds if and only if
the stream is long enough and every token in that prefix parses, and on
success exactly that prefix is consumed. -/
theorem loadEntries_snd {N M : ℕ} (pairs : List (Fin N × Fin M)) :
    ∀ (stream : List Token) (w : Matrix N M),
      (loadEntries pairs stream w).2 =
        if pairs.length ≤ stream.length ∧ (stream.take pairs.length).all Option.isSome then
          some (stream.drop pairs.length)
        else none := by
  induction pairs with
  | nil =>
    intro stream w
    simp [loadEntries]
  | cons p ps ih =>
    intro stream w
    match stream with
    | [] => simp [loadEntries, readToken]
    | none :: ts => simp [loadEntries, readToken]
    | some x :: ts =>
      simp only [loadEntries, readToken]
      rw [ih ts (update w p.1 p.2 x)]
      simp [List.take_succ_cons, List.drop_succ_cons, List.all_cons, Nat.succ_le_succ_iff]

/-- C5 amended.  loadWeightsFromFile succeeds if and only if the stream
holds at least HiddenSize * InputSize plus OutputSize * HiddenSize tokens
and every token in that prefix parses as a number: a short stream or a
non-parsable token in the prefix fails, but extra trailing content is
ignored, so a stream with too many entries still succeeds. -/
theorem claim5_success_iff {I H O : ℕ} (net : NeuralNetwork I H O) (stream : List Token) :
    (loadWeightsFromFile net stream).2 =
      (decide (H * I + O * H ≤ stream.length) &&
        (stream.take (H * I + O * H)).all Option.isSome) := by
  simp only [loadWeightsFromFile, loadMatrix]
  rw [loadEntries_snd, rowMajorPairs_length]
  by_cases h1 : H * I ≤ stream.length ∧ (stream.take (H * I)).all Option.isSome
  · rw [if_pos h1]
    obtain ⟨h1a, h1b⟩ := h1
    simp only []
    rw [loadEntries_snd, rowMajorPairs_length, List.length_drop]
    by_cases h2 : O * H ≤ stream.length - H * I ∧
        ((stream.drop (H * I)).take (O * H)).all Option.isSome
    · rw [if_pos h2]
      obtain ⟨h2a, h2b⟩ := h2
      have hle : H * I + O * H ≤ stream.length := by omega
      rw [List.take_add, List.all_append]
      simp [hle, h1b, h2b]
    · rw [if_neg h2]
      rw [List.take_add, List.all_append]
      by_cases h3 : H * I + O * H ≤ stream.length
      · have h4 : O * H ≤ stream.length - H * I := by omega
        have h5 : ¬((stream.drop (H * I)).take (O * H)).all Option.isSome := by
          intro hall
          exact h2 ⟨h4, hall⟩
        simp [h3, h1b, h5]
      · simp [h3]
  · rw [if_neg h1]
    rw [List.take_add, List.all_append]
    by_cases h3 : H * I + O * H ≤ stream.length
    · have h4 : H * I ≤ stream.length := by omega
      have h5 : ¬(stream.take (H * I)).all Option.isSome := fun hall => h1 ⟨h4, hall⟩
      simp [h3, h5]
    · simp [h3]

/-- C5 counterexample.  With all sizes one the expected entry count is two,
yet a stream of three numeric tokens, which has the wrong entry count,
still loads successfully: the trailing surplus is never checked. -/
theorem claim5_counterexample :
    (loadWeightsFromFile unitNet [some 1, some 1, some 1]).2 = true ∧
    ([some 1, some 1, some 1] : List Token).length ≠ 1 * 1 + 1 * 1 :=
  ⟨rfl, by simp⟩

/-- True when the first getline-plus-stod read of the stream already
throws: the stream is empty or its first token does not parse. -/
def firstTokenBad : List Token → Bool
  | [] => true
  | none :: _ => true
  | some _ :: _ => false

/-- A failing read before any entry was stored leaves the weights matrix
untouched. -/
theorem loadEntries_first_bad {N M : ℕ} (pairs : List (Fin N × Fin M)) (stream : List Token)
    (w : Matrix N M) (hp : pairs ≠ []) (ht : firstTokenBad stream = true) :
    loadEntries pairs stream w = (w, none) := by
  cases pairs with
  | nil => exact absurd rfl hp
  | cons p ps =>
    cases stream with
    | nil => rfl
    | cons t ts =>
      cases t with
      | none => rfl
      | some x => simp [firstTokenBad] at ht

/-- The row-major traversal of a nonempty grid is nonempty. -/
theorem rowMajorPairs_ne_nil {N M : ℕ} (hN : 0 < N) (hM : 0 < M) : rowMajorPairs N M ≠ [] := by
  intro hnil
  have h := rowMajorPairs_length N M
  rw [hnil] at h
  simp at h
  have := Nat.mul_pos hN hM
  omega

/-- C3 amended.  A failed load is not atomic in general: entries parsed
before the failing token keep their newly parsed values (see the
counterexample).  The weights are guaranteed completely unchanged, with
false returned, when the failure strikes at the very first token, before
any entry was stored. -/
theorem claim3_failure_first_token {I H O : ℕ} (net : NeuralNetwork (I + 1) (H + 1) (O + 1))
    (stream : List Token) (h : firstTokenBad stream = true) :
    loadWeightsFromFile net stream = (net, false) := by
  have h1 : loadMatrix stream net.inputWeights = (net.inputWeights, none) := by
    unfold loadMatrix
    exact loadEntries_first_bad _ _ _ (rowMajorPairs_ne_nil (by omega) (by omega)) h
  simp only [loadWeightsFromFile, h1]

/-- C3 witness: loading an empty stream fails and changes nothing. -/
theorem claim3_witness : loadWeightsFromFile unitNet ([] : List Token) = (unitNet, false) :=
  claim3_failure_first_token unitNet [] rfl

/-- A 2-input 1-hidden 1-output network with all weights zero. -/
def netZero : NeuralNetwork 2 1 1 := ⟨1, false, fun _ _ => 0, fun _ _ => 0⟩

/-- C3 counterexample.  On the stream whose first token parses as 2 and
whose second token does not parse, the load fails, yet the first entry of
inputWeights has already been overwritten with 2: failure is not atomic
and the prior weights do not all survive. -/
theorem claim3_counterexample :
    (loadWeightsFromFile netZero [some 2, none]).2 = false ∧
    (loadWeightsFromFile netZero [some 2, none]).1.inputWeights 0 0 ≠
      netZero.inputWeights 0 0 := by
  refine ⟨rfl, ?_⟩
  have hL : (loadWeightsFromFile netZero [some 2, none]).1.inputWeights 0 0 = 2 := rfl
  have hR : netZero.inputWeights 0 0 = 0 := rfl
  rw [hL, hR]
  norm_num

end NNet
